import Mathlib

/-!
# Verification of the omni-core authentication / federation server

Shallow embedding of the core of the `omni-core` repository
(`omni-core-lib` and `backend` crates) and proofs of the specified
properties.

Bytes are modelled as `Nat` values (kept `< 256` by hypotheses or by
construction); byte strings and transport text are `List Nat`.  The
external crates the source calls (`base64`, `chacha20poly1305`,
`x25519-dalek`, `hex`) are embedded from their defining specifications
(RFC 4648, RFC 8439, RFC 7748); everything else is translated directly
from the Rust source files.
-/

namespace OmniCore

/-! ## Base64 (RFC 4648, standard alphabet with padding)

Embedding of the `base64::engine::general_purpose::STANDARD` engine used
by `EncryptedMessage` in `src/omni-core-lib/src/crypto.rs` and
`src/backend/src/services/crypto.rs`: encoding pads with `=` and the
decoder requires canonical padding (unused trailing bits must be zero),
which is the default configuration of that engine. -/

/-- Map a 6-bit value to its standard-alphabet ASCII code. -/
def encode6 (s : Nat) : Nat :=
  if s < 26 then 65 + s
  else if s < 52 then 71 + s
  else if s < 62 then s - 4
  else if s = 62 then 43
  else 47

/-- Map an ASCII code back to its 6-bit value; `none` for characters
outside the standard alphabet (including the pad `=`). -/
def decode6 (c : Nat) : Option Nat :=
  if 65 ≤ c ∧ c ≤ 90 then some (c - 65)
  else if 97 ≤ c ∧ c ≤ 122 then some (c - 71)
  else if 48 ≤ c ∧ c ≤ 57 then some (c + 4)
  else if c = 43 then some 62
  else if c = 47 then some 63
  else none

/-- Base64-encode a byte string (standard alphabet, padded). -/
def b64encode : List Nat → List Nat
  | [] => []
  | [a] => [encode6 (a / 4), encode6 (a % 4 * 16), 61, 61]
  | [a, b] => [encode6 (a / 4), encode6 (a % 4 * 16 + b / 16), encode6 (b % 16 * 4), 61]
  | a :: b :: c :: rest =>
      encode6 (a / 4) :: encode6 (a % 4 * 16 + b / 16) ::
        encode6 (b % 16 * 4 + c / 64) :: encode6 (c % 64) :: b64encode rest

/-- Base64-decode; `none` on any text that the strict standard engine
rejects (wrong length, bad character, non-canonical padding). -/
def b64decode : List Nat → Option (List Nat)
  | [] => some []
  | w :: x :: y :: z :: rest =>
      match decode6 w, decode6 x with
      | some w', some x' =>
          if z = 61 then
            if rest = [] then
              if y = 61 then
                if x' % 16 = 0 then some [w' * 4 + x' / 16] else none
              else
                match decode6 y with
                | some y' =>
                    if y' % 4 = 0 then
                      some [w' * 4 + x' / 16, x' % 16 * 16 + y' / 4]
                    else none
                | none => none
            else none
          else
            match decode6 y, decode6 z with
            | some y', some z' =>
                match b64decode rest with
                | some rest' =>
                    some ((w' * 4 + x' / 16) :: (x' % 16 * 16 + y' / 4) ::
                          (y' % 4 * 64 + z') :: rest')
                | none => none
            | _, _ => none
      | _, _ => none
  | _ => none

theorem decode6_encode6 : ∀ s < 64, decode6 (encode6 s) = some s := by decide

theorem encode6_ne_pad : ∀ s < 64, encode6 s ≠ 61 := by decide

theorem b64_roundtrip : ∀ l : List Nat, (∀ b ∈ l, b < 256) →
    b64decode (b64encode l) = some l := by
  intro l
  induction l using b64encode.induct with
  | case1 => intro _; rfl
  | case2 a =>
      intro hb
      have ha : a < 256 := hb a (by simp)
      have h1 : a / 4 < 64 := by omega
      have h2 : a % 4 * 16 < 64 := by omega
      simp only [b64encode, b64decode, decode6_encode6 _ h1, decode6_encode6 _ h2]
      have : a % 4 * 16 % 16 = 0 := by omega
      simp only [this, if_pos rfl, if_true, Option.some.injEq, List.cons.injEq, and_true]
      omega
  | case3 a b =>
      intro hb
      have ha : a < 256 := hb a (by simp)
      have hbb : b < 256 := hb b (by simp)
      have h1 : a / 4 < 64 := by omega
      have h2 : a % 4 * 16 + b / 16 < 64 := by omega
      have h3 : b % 16 * 4 < 64 := by omega
      have hne : encode6 (b % 16 * 4) ≠ 61 := encode6_ne_pad _ h3
      simp only [b64encode, b64decode, decode6_encode6 _ h1, decode6_encode6 _ h2,
        decode6_encode6 _ h3, if_pos rfl, if_neg hne]
      have hy : b % 16 * 4 % 4 = 0 := by omega
      simp only [hy, if_pos rfl, if_true, Option.some.injEq, List.cons.injEq, and_true]
      omega
  | case4 a b c rest ih =>
      intro hb
      have ha : a < 256 := hb a (by simp)
      have hbb : b < 256 := hb b (by simp)
      have hc : c < 256 := hb c (by simp)
      have h1 : a / 4 < 64 := by omega
      have h2 : a % 4 * 16 + b / 16 < 64 := by omega
      have h3 : b % 16 * 4 + c / 64 < 64 := by omega
      have h4 : c % 64 < 64 := by omega
      have hrest : b64decode (b64encode rest) = some rest := by
        refine ih ?_
        intro x hx
        exact hb x (by simp [hx])
      have hne : encode6 (c % 64) ≠ 61 := encode6_ne_pad _ h4
      simp only [b64encode, b64decode, decode6_encode6 _ h1, decode6_encode6 _ h2,
        decode6_encode6 _ h3, decode6_encode6 _ h4, if_neg hne, hrest]
      simp only [Option.some.injEq, List.cons.injEq, true_and, and_true]
      refine ⟨by omega, by omega, by omega⟩

/-! ## ChaCha20-Poly1305 (RFC 8439)

Embedding of the `chacha20poly1305::ChaCha20Poly1305` AEAD used by
`EncryptedMessage::encrypt`/`decrypt`.  32-bit words are `Nat` values
reduced `% 2 ^ 32`; byte strings are little-endian throughout, exactly
as in the RFC. -/

/-- Left-rotation of a 32-bit word. -/
def rotl32 (x n : Nat) : Nat :=
  (x * 2 ^ n) % 2 ^ 32 + x / 2 ^ (32 - n)

/-- 32-bit addition. -/
def add32 (x y : Nat) : Nat := (x + y) % 2 ^ 32

/-- Read word `i` of a ChaCha state. -/
def getW (s : List Nat) (i : Nat) : Nat := s.getD i 0

/-- The ChaCha quarter round on words `a b c d` of the state. -/
def quarterRound (a b c d : Nat) (s : List Nat) : List Nat :=
  let sa := add32 (getW s a) (getW s b)
  let sd := rotl32 ((getW s d).xor sa) 16
  let sc := add32 (getW s c) sd
  let sb := rotl32 ((getW s b).xor sc) 12
  let sa' := add32 sa sb
  let sd' := rotl32 (sd.xor sa') 8
  let sc' := add32 sc sd'
  let sb' := rotl32 (sb.xor sc') 7
  ((((s.set a sa').set b sb').set c sc').set d sd')

/-- One double round: four column rounds then four diagonal rounds. -/
def doubleRound (s : List Nat) : List Nat :=
  quarterRound 3 4 9 14 (quarterRound 2 7 8 13 (quarterRound 1 6 11 12
    (quarterRound 0 5 10 15 (quarterRound 0 4 8 12 (quarterRound 1 5 9 13
      (quarterRound 2 6 10 14 (quarterRound 3 7 11 15 s)))))))

/-- `n` double rounds (ChaCha20 uses 10). -/
def chachaRounds : Nat → List Nat → List Nat
  | 0, s => s
  | n + 1, s => chachaRounds n (doubleRound s)

/-- Little-endian 32-bit words from a byte string (trailing partial
group dropped; inputs here always have length a multiple of 4). -/
def wordsOfBytes : List Nat → List Nat
  | a :: b :: c :: d :: rest =>
      (a + 256 * b + 65536 * c + 16777216 * d) :: wordsOfBytes rest
  | _ => []

/-- Serialize state words to little-endian bytes. -/
def serWords : List Nat → List Nat
  | [] => []
  | w :: ws => w % 256 :: w / 256 % 256 :: w / 65536 % 256 :: w / 16777216 % 256 :: serWords ws

/-- The initial ChaCha20 state for a 32-byte key, a block counter and a
12-byte nonce. -/
def chachaInit (key : List Nat) (counter : Nat) (nonce : List Nat) : List Nat :=
  [0x61707865, 0x3320646e, 0x79622d32, 0x6b206574] ++
    wordsOfBytes key ++ [counter % 2 ^ 32] ++ wordsOfBytes nonce

/-- The 64-byte ChaCha20 block for a given key, counter and nonce. -/
def chachaBlock (key : List Nat) (counter : Nat) (nonce : List Nat) : List Nat :=
  let init := chachaInit key counter nonce
  serWords (List.zipWith add32 (chachaRounds 10 init) init)

/-- `n` consecutive keystream blocks starting at block `counter`. -/
def ksBlocks (key : List Nat) (nonce : List Nat) : Nat → Nat → List Nat
  | _, 0 => []
  | counter, n + 1 => chachaBlock key counter nonce ++ ksBlocks key nonce (counter + 1) n

/-- The encryption keystream: `len` bytes starting at block counter 1
(block 0 keys the Poly1305 authenticator). -/
def keystream (key nonce : List Nat) (len : Nat) : List Nat :=
  (ksBlocks key nonce 1 ((len + 63) / 64)).take len

/-- The Poly1305 prime `2 ^ 130 - 5`. -/
def polyP : Nat := 2 ^ 130 - 5

/-- Clamp the `r` half of the Poly1305 key. -/
def polyClamp (r : Nat) : Nat := r &&& 0x0ffffffc0ffffffc0ffffffc0fffffff

/-- Little-endian number of a byte string. -/
def leNum : List Nat → Nat
  | [] => 0
  | b :: rest => b + 256 * leNum rest

/-- The Poly1305 accumulator over 16-byte chunks of `msg`
(`fuel`-structural so that it reduces by `rfl`; `fuel` is always taken
`≥ msg.length`). -/
def polyAcc (r : Nat) : Nat → Nat → List Nat → Nat
  | _, acc, [] => acc
  | 0, acc, _ => acc
  | fuel + 1, acc, msg =>
      let chunk := msg.take 16
      let acc' := (acc + leNum chunk + 2 ^ (8 * chunk.length)) * r % polyP
      polyAcc r fuel acc' (msg.drop 16)

/-- `n` as `len` little-endian bytes. -/
def natToBytesLE : Nat → Nat → List Nat
  | _, 0 => []
  | n, len + 1 => n % 256 :: natToBytesLE (n / 256) len

/-- The Poly1305 tag of `msg` under the 32-byte one-time key `r ++ s`. -/
def poly1305 (otk msg : List Nat) : List Nat :=
  let r := polyClamp (leNum (otk.take 16))
  let s := leNum (otk.drop 16)
  natToBytesLE (polyAcc r msg.length 0 msg + s) 16

/-- Pad a byte string with zero bytes to a 16-byte boundary. -/
def pad16 (l : List Nat) : List Nat :=
  l ++ List.replicate ((16 - l.length % 16) % 16) 0

/-- The Poly1305 message authenticated by the AEAD construction with
empty associated data: padded ciphertext followed by the two length
words. -/
def macData (ct : List Nat) : List Nat :=
  pad16 ct ++ natToBytesLE 0 8 ++ natToBytesLE ct.length 8

/-- The AEAD tag: Poly1305 over `macData` keyed by the first 32 bytes of
block 0 of the keystream. -/
def aeadTag (key nonce ct : List Nat) : List Nat :=
  poly1305 ((chachaBlock key 0 nonce).take 32) (macData ct)

/-- AEAD seal (RFC 8439 §2.8): ciphertext (plaintext XOR keystream)
followed by the 16-byte tag. -/
def aeadSeal (key nonce m : List Nat) : List Nat :=
  let ct := List.zipWith Nat.xor m (keystream key nonce m.length)
  ct ++ aeadTag key nonce ct

/-- AEAD open: split off the 16-byte tag, recompute it over the
ciphertext and fail unless it matches. -/
def aeadOpen (key nonce ctFull : List Nat) : Option (List Nat) :=
  if ctFull.length < 16 then none
  else
    let ct := ctFull.take (ctFull.length - 16)
    let tag := ctFull.drop (ctFull.length - 16)
    if tag = aeadTag key nonce ct then
      some (List.zipWith Nat.xor ct (keystream key nonce ct.length))
    else none

theorem serWords_length (ws : List Nat) : (serWords ws).length = 4 * ws.length := by
  induction ws with
  | nil => rfl
  | cons w ws ih => simp [serWords, ih]; omega

theorem wordsOfBytes_length (l : List Nat) :
    (wordsOfBytes l).length = l.length / 4 := by
  induction l using wordsOfBytes.induct with
  | case1 a b c d rest ih => simp [wordsOfBytes, ih]; omega
  | case2 l h =>
      rcases l with _ | ⟨a, _ | ⟨b, _ | ⟨c, _ | ⟨d, rest⟩⟩⟩⟩
      · simp [wordsOfBytes]
      · simp [wordsOfBytes]
      · simp [wordsOfBytes]
      · simp [wordsOfBytes]
      · exact (h a b c d rest rfl).elim

theorem quarterRound_length (a b c d : Nat) (s : List Nat) :
    (quarterRound a b c d s).length = s.length := by
  simp [quarterRound]

theorem doubleRound_length (s : List Nat) : (doubleRound s).length = s.length := by
  simp [doubleRound, quarterRound_length]

theorem chachaRounds_length (n : Nat) (s : List Nat) :
    (chachaRounds n s).length = s.length := by
  induction n generalizing s with
  | zero => rfl
  | succ n ih => simp [chachaRounds, ih, doubleRound_length]

theorem chachaInit_length (key nonce : List Nat) (counter : Nat)
    (hk : key.length = 32) (hn : nonce.length = 12) :
    (chachaInit key counter nonce).length = 16 := by
  simp [chachaInit, wordsOfBytes_length, hk, hn]

theorem chachaBlock_length (key nonce : List Nat) (counter : Nat)
    (hk : key.length = 32) (hn : nonce.length = 12) :
    (chachaBlock key counter nonce).length = 64 := by
  simp [chachaBlock, serWords_length, chachaRounds_length,
    chachaInit_length key nonce counter hk hn]

theorem ksBlocks_length (key nonce : List Nat) (hk : key.length = 32)
    (hn : nonce.length = 12) (n counter : Nat) :
    (ksBlocks key nonce counter n).length = 64 * n := by
  induction n generalizing counter with
  | zero => rfl
  | succ n ih =>
      simp [ksBlocks, chachaBlock_length key nonce counter hk hn, ih]
      omega

theorem keystream_length (key nonce : List Nat) (hk : key.length = 32)
    (hn : nonce.length = 12) (len : Nat) :
    (keystream key nonce len).length = len := by
  simp [keystream, ksBlocks_length key nonce hk hn]
  omega

theorem serWords_lt (ws : List Nat) : ∀ b ∈ serWords ws, b < 256 := by
  induction ws with
  | nil => simp [serWords]
  | cons w ws ih =>
      intro b hb
      simp only [serWords, List.mem_cons] at hb
      rcases hb with h | h | h | h | h
      · omega
      · omega
      · omega
      · omega
      · exact ih b h

theorem ksBlocks_lt (key nonce : List Nat) (n counter : Nat) :
    ∀ b ∈ ksBlocks key nonce counter n, b < 256 := by
  induction n generalizing counter with
  | zero => simp [ksBlocks]
  | succ n ih =>
      intro b hb
      simp only [ksBlocks, List.mem_append] at hb
      rcases hb with h | h
      · exact serWords_lt _ b h
      · exact ih (counter + 1) b h

theorem keystream_lt (key nonce : List Nat) (len : Nat) :
    ∀ b ∈ keystream key nonce len, b < 256 :=
  fun b hb => ksBlocks_lt key nonce _ 1 b (List.take_subset _ _ hb)

theorem zipWith_xor_lt : ∀ m ks : List Nat, (∀ b ∈ m, b < 256) →
    (∀ b ∈ ks, b < 256) → ∀ b ∈ List.zipWith Nat.xor m ks, b < 256 := by
  intro m
  induction m with
  | nil => intro ks _ _; simp
  | cons a m ih =>
      intro ks hm hks b hb
      cases ks with
      | nil => simp at hb
      | cons k ks =>
          simp only [List.zipWith_cons_cons, List.mem_cons] at hb
          rcases hb with h | h
          · subst h
            have h1 : a < 2 ^ 8 := hm a (by simp)
            have h2 : k < 2 ^ 8 := hks k (by simp)
            exact Nat.xor_lt_two_pow h1 h2
          · exact ih ks (fun x hx => hm x (by simp [hx]))
              (fun x hx => hks x (by simp [hx])) b h

theorem natToBytesLE_length (n len : Nat) : (natToBytesLE n len).length = len := by
  induction len generalizing n with
  | zero => rfl
  | succ len ih => simp [natToBytesLE, ih]

theorem natToBytesLE_lt (n len : Nat) : ∀ b ∈ natToBytesLE n len, b < 256 := by
  induction len generalizing n with
  | zero => simp [natToBytesLE]
  | succ len ih =>
      intro b hb
      simp only [natToBytesLE, List.mem_cons] at hb
      rcases hb with h | h
      · omega
      · exact ih (n / 256) b h

theorem zipWith_xor_cancel (m ks : List Nat) (h : m.length ≤ ks.length) :
    List.zipWith Nat.xor (List.zipWith Nat.xor m ks) ks = m := by
  induction m generalizing ks with
  | nil => simp
  | cons a m ih =>
      cases ks with
      | nil => simp at h
      | cons k ks =>
          simp only [List.zipWith_cons_cons, List.cons.injEq]
          exact ⟨Nat.xor_cancel_right k a, ih ks (by simpa using h)⟩

/-- The AEAD round trip: opening a sealed message with the same key and
nonce recovers the plaintext. -/
theorem aeadOpen_aeadSeal (key nonce m : List Nat) (hk : key.length = 32)
    (hn : nonce.length = 12) : aeadOpen key nonce (aeadSeal key nonce m) = some m := by
  have hks : (keystream key nonce m.length).length = m.length :=
    keystream_length key nonce hk hn m.length
  have hct : (List.zipWith Nat.xor m (keystream key nonce m.length)).length = m.length := by
    simp [List.length_zipWith, hks]
  have htag : (aeadTag key nonce
      (List.zipWith Nat.xor m (keystream key nonce m.length))).length = 16 := by
    simp [aeadTag, poly1305, natToBytesLE_length]
  simp only [aeadOpen, aeadSeal, List.length_append, hct, htag]
  have hlen : ¬ (m.length + 16 < 16) := by omega
  rw [if_neg hlen]
  have he : m.length + 16 - 16 = m.length := by omega
  rw [he, List.take_left' hct, List.drop_left' hct, if_pos rfl, hct,
    zipWith_xor_cancel m _ (by omega)]

/-! ## `EncryptedMessage` (envelope encryption)

Translated from `impl EncryptedMessage` in
`src/omni-core-lib/src/crypto.rs` (the copy in
`src/backend/src/services/crypto.rs` is identical code).  The random
nonce drawn by `encrypt` is passed explicitly; transport text is the
base64 character-code list. -/

/-- `CryptoError` from `src/omni-core-lib/src/crypto.rs` (the backend
copy has the same variants minus `InvalidSecretKey`). -/
inductive CryptoError where
  | InvalidKey
  | InvalidSecretKey
  | InvalidPublicKey
  | InvalidNonce
  | InvalidCiphertext
  | EncryptionFailed
  | DecryptionFailed
deriving DecidableEq, Repr

/-- The wire envelope: base64 text for the nonce and the ciphertext. -/
structure EncryptedMessage where
  nonce : List Nat
  ciphertext : List Nat
deriving DecidableEq, Repr

/-- `EncryptedMessage::encrypt`: AEAD-seal `plaintext` under
`sharedSecret` with the freshly drawn 12-byte `nonceBytes`, base64 both
parts.  (`new_from_slice` fails exactly on a key whose length is not
32.) -/
def EncryptedMessage.encrypt (plaintext sharedSecret nonceBytes : List Nat) :
    Except CryptoError EncryptedMessage :=
  if sharedSecret.length ≠ 32 then .error .InvalidKey
  else .ok { nonce := b64encode nonceBytes,
             ciphertext := b64encode (aeadSeal sharedSecret nonceBytes plaintext) }

/-- `EncryptedMessage::decrypt`: decode the base64 nonce (12 bytes
required) and ciphertext, then AEAD-open; each failure is mapped to the
error variant the source maps it to. -/
def EncryptedMessage.decrypt (msg : EncryptedMessage) (sharedSecret : List Nat) :
    Except CryptoError (List Nat) :=
  match b64decode msg.nonce with
  | none => .error .InvalidNonce
  | some nb =>
      if nb.length ≠ 12 then .error .InvalidNonce
      else
        match b64decode msg.ciphertext with
        | none => .error .InvalidCiphertext
        | some ctFull =>
            if sharedSecret.length ≠ 32 then .error .InvalidKey
            else
              match aeadOpen sharedSecret nb ctFull with
              | some pt => .ok pt
              | none => .error .DecryptionFailed

/-! ## X25519 key agreement

`ServerKeyPair` / `ClientKeyPair` from `src/omni-core-lib/src/crypto.rs`
(lines 15-94).  Modelled from the spec: the scalar-multiplication
primitive itself (`x25519-dalek`'s `StaticSecret::diffie_hellman`) is an
external dependency, specified as "standard X25519 scalar
multiplication" (RFC 7748); it is embedded as multiplication by the
RFC 7748-clamped scalar in the cyclic group generated by the X25519
base point, which we identify with `ZMod` of the group order. -/

/-- The order of the cyclic subgroup of Curve25519 generated by the
X25519 base point. -/
def ord25519 : Nat := 2 ^ 252 + 27742317777372353535851937790883648493

/-- A point of the subgroup generated by the base point, written
additively as `ZMod ord25519` (the base point is `1`). -/
abbrev CurvePoint : Type := ZMod ord25519

/-- The X25519 base point. -/
def basePoint : CurvePoint := 1

/-- RFC 7748 scalar clamping: clear the three low bits and bit 255, set
bit 254. -/
def clamp (k : Nat) : Nat := 2 ^ 254 + 8 * (k / 8 % 2 ^ 251)

/-- X25519 scalar multiplication of a subgroup point by a (clamped)
private scalar. -/
def x25519 (sk : Nat) (point : CurvePoint) : CurvePoint :=
  (clamp sk : ZMod ord25519) * point

/-- The public point derived deterministically from a private scalar
(`PublicKey::from(&secret)`). -/
def publicOf (sk : Nat) : CurvePoint := x25519 sk basePoint

/-- `ServerKeyPair`: a private scalar and its derived public point. -/
structure ServerKeyPair where
  secret : Nat
  public : CurvePoint

/-- `ServerKeyPair::generate` with the random scalar passed in. -/
def ServerKeyPair.generate (sk : Nat) : ServerKeyPair :=
  { secret := sk, public := publicOf sk }

/-- `ServerKeyPair::derive_shared_secret`: DH with a client public
point. -/
def ServerKeyPair.derive_shared_secret (kp : ServerKeyPair)
    (clientPublic : CurvePoint) : CurvePoint :=
  x25519 kp.secret clientPublic

/-- `ClientKeyPair`: same representation as the server side. -/
structure ClientKeyPair where
  secret : Nat
  public : CurvePoint

/-- `ClientKeyPair::generate` with the random scalar passed in. -/
def ClientKeyPair.generate (sk : Nat) : ClientKeyPair :=
  { secret := sk, public := publicOf sk }

/-- `ClientKeyPair::derive_shared_secret`: DH with a server public
point. -/
def ClientKeyPair.derive_shared_secret (kp : ClientKeyPair)
    (serverPublic : CurvePoint) : CurvePoint :=
  x25519 kp.secret serverPublic

/-- **C2**: for every two X25519 keypairs, the shared secret derived
from one side's private scalar and the other side's public point is the
same on both sides; in particular `ServerKeyPair::derive_shared_secret`
on the client's public key equals `ClientKeyPair::derive_shared_secret`
on the server's public key. -/
theorem dh_commutativity (skS skC : Nat) :
    (ServerKeyPair.generate skS).derive_shared_secret (ClientKeyPair.generate skC).public =
      (ClientKeyPair.generate skC).derive_shared_secret (ServerKeyPair.generate skS).public := by
  simp only [ServerKeyPair.generate, ClientKeyPair.generate,
    ServerKeyPair.derive_shared_secret, ClientKeyPair.derive_shared_secret,
    publicOf, x25519, basePoint]
  ring

/-- **C1**: decrypting the envelope produced by
`EncryptedMessage::encrypt(m, k)` with the same 32-byte key `k` succeeds
and returns exactly `m` (for the fresh 12-byte nonce drawn inside
`encrypt`, passed here explicitly). -/
theorem encrypt_decrypt_roundtrip (m k nonce : List Nat)
    (hm : ∀ b ∈ m, b < 256) (hk : k.length = 32)
    (hn : nonce.length = 12) (hnb : ∀ b ∈ nonce, b < 256) :
    (do
      let env ← EncryptedMessage.encrypt m k nonce
      env.decrypt k) = Except.ok m := by
  have hsealed : ∀ b ∈ aeadSeal k nonce m, b < 256 := by
    intro b hb
    simp only [aeadSeal, aeadTag, poly1305, List.mem_append] at hb
    rcases hb with h | h
    · exact zipWith_xor_lt m _ hm (keystream_lt k nonce m.length) b h
    · exact natToBytesLE_lt _ _ b h
  have h1 : b64decode (b64encode nonce) = some nonce := b64_roundtrip nonce hnb
  have h2 : b64decode (b64encode (aeadSeal k nonce m)) = some (aeadSeal k nonce m) :=
    b64_roundtrip _ hsealed
  have henc : EncryptedMessage.encrypt m k nonce =
      .ok { nonce := b64encode nonce, ciphertext := b64encode (aeadSeal k nonce m) } := by
    simp [EncryptedMessage.encrypt, hk]
  rw [henc]
  show EncryptedMessage.decrypt _ k = Except.ok m
  simp only [EncryptedMessage.decrypt, h1, h2, hn, hk,
    aeadOpen_aeadSeal k nonce m hk hn, ne_eq, not_true_eq_false, if_false]

/-- **C1 witness**: the round trip evaluated at a concrete plaintext,
key and nonce. -/
theorem encrypt_decrypt_roundtrip_witness :
    ((∀ b ∈ ([104, 105] : List Nat), b < 256) ∧
      (List.replicate 32 7 : List Nat).length = 32 ∧
      (List.replicate 12 3 : List Nat).length = 12 ∧
      (∀ b ∈ (List.replicate 12 3 : List Nat), b < 256)) ∧
    (do
      let env ← EncryptedMessage.encrypt [104, 105] (List.replicate 32 7) (List.replicate 12 3)
      env.decrypt (List.replicate 32 7)) = Except.ok [104, 105] :=
  ⟨⟨by decide, by decide, by decide, by decide⟩,
    encrypt_decrypt_roundtrip [104, 105] (List.replicate 32 7) (List.replicate 12 3)
      (by decide) (by decide) (by decide) (by decide)⟩

set_option maxRecDepth 10000 in
/-- **C8 counterexample**: three failed decrypts — malformed nonce
base64, malformed ciphertext base64, and a ciphertext whose
authentication tag does not verify — surface three *different* error
values, so failure causes are distinguishable by the caller, refuting
"one single generic decryption failure, indistinguishable across these
root causes". -/
theorem decrypt_errors_distinguishable :
    EncryptedMessage.decrypt { nonce := [48], ciphertext := [65] } (List.replicate 32 0)
        = Except.error CryptoError.InvalidNonce ∧
    EncryptedMessage.decrypt
        { nonce := b64encode (List.replicate 12 0), ciphertext := [48] } (List.replicate 32 0)
        = Except.error CryptoError.InvalidCiphertext ∧
    EncryptedMessage.decrypt
        { nonce := b64encode (List.replicate 12 0),
          ciphertext := b64encode (List.replicate 16 0) } (List.replicate 32 0)
        = Except.error CryptoError.DecryptionFailed ∧
    CryptoError.InvalidNonce ≠ CryptoError.DecryptionFailed ∧
    CryptoError.InvalidCiphertext ≠ CryptoError.DecryptionFailed :=
  ⟨by rfl, by rfl, by rfl, by decide, by decide⟩

/-- **C8 (amended)**: every failed decrypt fails closed — no plaintext
is released, and a successful decrypt passes through a full
authenticated AEAD open — but the error value *distinguishes* the root
cause: malformed nonce base64 or wrong nonce length yields
`InvalidNonce`, malformed ciphertext base64 yields `InvalidCiphertext`,
a wrong-length key yields `InvalidKey`, and a failed authenticated open
(tampered ciphertext or wrong key) yields `DecryptionFailed`. -/
theorem decrypt_failure_classification (env : EncryptedMessage) (k : List Nat) :
    (b64decode env.nonce = none → env.decrypt k = .error .InvalidNonce) ∧
    (∀ nb, b64decode env.nonce = some nb → nb.length ≠ 12 →
      env.decrypt k = .error .InvalidNonce) ∧
    (∀ nb, b64decode env.nonce = some nb → nb.length = 12 →
      b64decode env.ciphertext = none → env.decrypt k = .error .InvalidCiphertext) ∧
    (∀ nb ct, b64decode env.nonce = some nb → nb.length = 12 →
      b64decode env.ciphertext = some ct → k.length = 32 → aeadOpen k nb ct = none →
      env.decrypt k = .error .DecryptionFailed) ∧
    (∀ pt, env.decrypt k = .ok pt → ∃ nb ct, b64decode env.nonce = some nb ∧
      b64decode env.ciphertext = some ct ∧ aeadOpen k nb ct = some pt) := by
  refine ⟨?_, ?_, ?_, ?_, ?_⟩
  · intro h
    simp [EncryptedMessage.decrypt, h]
  · intro nb h hne
    simp [EncryptedMessage.decrypt, h, hne]
  · intro nb h h12 hct
    simp [EncryptedMessage.decrypt, h, h12, hct]
  · intro nb ct h h12 hct hk hop
    simp [EncryptedMessage.decrypt, h, h12, hct, hk, hop]
  · intro pt h
    simp only [EncryptedMessage.decrypt] at h
    rcases hnb : b64decode env.nonce with _ | nb <;> simp only [hnb] at h
    · exact Except.noConfusion h
    · by_cases h12 : nb.length ≠ 12
      · simp only [if_pos h12] at h
        exact Except.noConfusion h
      · simp only [if_neg h12] at h
        rcases hct : b64decode env.ciphertext with _ | ct <;> simp only [hct] at h
        · exact Except.noConfusion h
        · by_cases hk : k.length ≠ 32
          · simp only [if_pos hk] at h
            exact Except.noConfusion h
          · simp only [if_neg hk] at h
            rcases hop : aeadOpen k nb ct with _ | pt' <;> simp only [hop] at h
            · exact Except.noConfusion h
            · simp only [Except.ok.injEq] at h
              exact ⟨nb, ct, rfl, rfl, by rw [hop, h]⟩

/-- **C8 (amended) witness**: the classification applied to a concrete
malformed-nonce envelope. -/
theorem decrypt_failure_classification_witness :
    EncryptedMessage.decrypt { nonce := [48], ciphertext := [65] } (List.replicate 32 0)
      = Except.error CryptoError.InvalidNonce :=
  (decrypt_failure_classification { nonce := [48], ciphertext := [65] }
    (List.replicate 32 0)).1 (by rfl)

/-! ## Keyed in-memory stores

Every store in the backend keeps a `HashMap` behind a lock; we model a
map as an association list of records keyed by one of their `String`
fields, with `upsert` playing the role of `HashMap::insert`
(replace-or-append) and `find?` of `HashMap::get`.  Fallible
persistence writes (`save()`) are modelled by an explicit outcome
function passed to the operations that perform them. -/

/-- `HashMap::insert` on a keyed association list: replace the entry
with the same key, or append. -/
def upsert {α : Type} (key : α → String) (l : List α) (e : α) : List α :=
  if l.any (fun x => key x == key e) then
    l.map (fun x => if key x == key e then e else x)
  else l ++ [e]

theorem find?_upsert_self {α : Type} (key : α → String) (l : List α) (e : α) :
    (upsert key l e).find? (fun x => key x == key e) = some e := by
  unfold upsert
  by_cases h : l.any (fun x => key x == key e)
  · rw [if_pos h]
    induction l with
    | nil => simp at h
    | cons x l ih =>
        cases hx : (key x == key e) with
        | true =>
            rw [List.map_cons, if_pos hx]
            simp [List.find?_cons]
        | false =>
            have hl : l.any (fun x => key x == key e) = true := by
              simp only [List.any_cons, hx, Bool.false_or] at h
              exact h
            rw [List.map_cons, if_neg (by simp [hx])]
            simp only [List.find?_cons, hx]
            exact ih hl
  · rw [if_neg h]
    induction l with
    | nil => simp [List.find?_cons]
    | cons x l ih =>
        simp only [List.any_cons, Bool.or_eq_true, not_or] at h
        have hx : (key x == key e) = false := by simpa using h.1
        rw [List.cons_append]
        simp only [List.find?_cons, hx]
        exact ih (by simp [h.2])

theorem find?_upsert_other {α : Type} (key : α → String) (l : List α) (e : α)
    (k : String) (h : (key e == k) = false) :
    (upsert key l e).find? (fun x => key x == k) = l.find? (fun x => key x == k) := by
  unfold upsert
  by_cases hc : l.any (fun x => key x == key e)
  · rw [if_pos hc]
    clear hc
    induction l with
    | nil => rfl
    | cons x l ih =>
        cases hx : (key x == key e) with
        | true =>
            have hxe : key x = key e := by simpa using hx
            have h2 : (key x == k) = false := by rw [hxe]; exact h
            rw [List.map_cons, if_pos hx]
            simp only [List.find?_cons, h, h2]
            exact ih
        | false =>
            rw [List.map_cons, if_neg (by simp [hx])]
            cases hxk : (key x == k) with
            | true => simp only [List.find?_cons, hxk]
            | false =>
                simp only [List.find?_cons, hxk]
                exact ih
  · rw [if_neg hc, List.find?_append]
    cases hfl : l.find? (fun x => key x == k) with
    | some v => rfl
    | none => simp [List.find?_cons, h]

/-! ## Server federation registry

Translated from `src/backend/src/services/server_registry.rs`. -/

/-- `ServerEntry`: a known federation peer. -/
structure ServerEntry where
  server_id : String
  name : String
  description : Option String
  public_url : String
  public_key : String
  is_public : Bool
  is_authenticated : Bool
  discovered_at : String
  last_seen : Option String
  last_sync : Option String
  version : Option String
  trust_level : Nat
deriving DecidableEq, Repr

/-- `ServerEntry::new` (with `chrono::Utc::now().to_rfc3339()` passed in
as `now`). -/
def ServerEntry.new (server_id name public_url public_key now : String) : ServerEntry :=
  { server_id := server_id, name := name, description := none,
    public_url := public_url, public_key := public_key,
    is_public := true, is_authenticated := false, discovered_at := now,
    last_seen := none, last_sync := none, version := none, trust_level := 50 }

/-- The in-memory `HashMap<String, ServerEntry>` of `ServerRegistry`,
keyed by `server_id`. -/
abbrev Registry : Type := List ServerEntry

/-- The outcome of `ServerEntry::save` for each entry (the file system
decides it). -/
abbrev SaveOutcome : Type := ServerEntry → Bool

/-- `servers.contains_key(id)`. -/
def Registry.containsId (reg : Registry) (id : String) : Bool :=
  reg.any (fun s => s.server_id == id)

/-- `ServerRegistry::get`. -/
def Registry.get (reg : Registry) (id : String) : Option ServerEntry :=
  reg.find? (fun s => s.server_id == id)

/-- `ServerRegistry::list_all`. -/
def Registry.list_all (reg : Registry) : List ServerEntry := reg

/-- `ServerRegistry::list_public`. -/
def Registry.list_public (reg : Registry) : List ServerEntry :=
  reg.filter (fun s => s.is_public)

/-- `ServerRegistry::list_authenticated`. -/
def Registry.list_authenticated (reg : Registry) : List ServerEntry :=
  reg.filter (fun s => s.is_authenticated)

/-- `ServerRegistry::register`: `entry.save()?` first — a failed
persistence write propagates the error `before` the in-memory insert —
then `servers.insert(entry.server_id, entry)`. -/
def Registry.register (saveOk : SaveOutcome) (reg : Registry) (e : ServerEntry) :
    Except Unit Registry :=
  if saveOk e then .ok (upsert ServerEntry.server_id reg e) else .error ()

/-- `ServerRegistry::mark_synced`: set `last_sync` on the entry if
present (the in-memory mutation happens before the `save()` whose
result the callers discard). -/
def Registry.mark_synced (reg : Registry) (id now : String) : Registry :=
  reg.map (fun s => if s.server_id == id then { s with last_sync := some now } else s)

/-- `ServerRegistry::merge_from`: insert-only merge — an incoming entry
is inserted verbatim iff its `server_id` is unknown and its `save()`
succeeds; returns the count of inserted entries. -/
def Registry.merge_from (saveOk : SaveOutcome) : List ServerEntry → Registry → Nat × Registry
  | [], reg => (0, reg)
  | s :: rest, reg =>
      if reg.containsId s.server_id then Registry.merge_from saveOk rest reg
      else if saveOk s then
        let r := Registry.merge_from saveOk rest (reg ++ [s])
        (r.1 + 1, r.2)
      else Registry.merge_from saveOk rest reg

/-- `ServerRegistry::count`. -/
def Registry.count (reg : Registry) : Nat := reg.length

/-! ## Federation API endpoints

Translated from `src/backend/src/api/servers.rs`.  HTTP status codes are
the `Nat` they map to; handler results are the response or a
`(status, message)` error, paired with the post-state of the shared
registry. -/

/-- `PublicServerInfo`: the fields a peer may see. -/
structure PublicServerInfo where
  server_id : String
  name : String
  description : Option String
  public_url : String
  public_key : String
  version : String
deriving DecidableEq, Repr

/-- The field mapping applied to each entry of a server list response
(`version.unwrap_or_default()`). -/
def toPublicInfo (s : ServerEntry) : PublicServerInfo :=
  { server_id := s.server_id, name := s.name, description := s.description,
    public_url := s.public_url, public_key := s.public_key,
    version := s.version.getD "" }

/-- `ServerListResponse`. -/
structure ServerListResponse where
  servers : List PublicServerInfo
  total : Nat
deriving DecidableEq, Repr

/-- `SyncRequest`. -/
structure SyncRequest where
  requesting_server_id : String
  requesting_server_key : String
deriving DecidableEq, Repr

/-- `RegisterServerRequest`. -/
structure RegisterServerRequest where
  server_id : String
  name : String
  description : Option String
  public_url : String
  public_key : String
  is_public : Bool
deriving DecidableEq, Repr

/-- `RegisterServerResponse`. -/
structure RegisterServerResponse where
  success : Bool
  message : String
  our_server_id : String
  our_public_key : String
deriving DecidableEq, Repr

/-- The entry `register_server` builds: `ServerEntry::new` updated with
the request's `description` and `is_public`. -/
def freshRegEntry (req : RegisterServerRequest) (now : String) : ServerEntry :=
  { ServerEntry.new req.server_id req.name req.public_url req.public_key now with
    description := req.description, is_public := req.is_public }

/-- `register_server` (no authentication is required by this handler):
build a fresh entry from the request and `register` it, surfacing a
persistence failure as a 500. -/
def register_server (saveOk : SaveOutcome) (reg : Registry)
    (req : RegisterServerRequest) (now ourId ourKey : String) :
    Except (Nat × String) RegisterServerResponse × Registry :=
  match Registry.register saveOk reg (freshRegEntry req now) with
  | .error _ => (.error (500, "io error"), reg)
  | .ok reg' =>
      (.ok { success := true, message := "Server registered successfully",
             our_server_id := ourId, our_public_key := ourKey }, reg')

/-- `sync_servers`: authorize the requester against the local registry,
answer with the `list_public()` snapshot and mark the requester
synced. -/
def sync_servers (reg : Registry) (req : SyncRequest) (now : String) :
    Except (Nat × String) ServerListResponse × Registry :=
  match reg.get req.requesting_server_id with
  | none => (.error (401, "Unknown server"), reg)
  | some server =>
      if !server.is_authenticated then
        (.error (401, "Server not authenticated"), reg)
      else
        let public_servers := reg.list_public.map toPublicInfo
        let reg' := reg.mark_synced req.requesting_server_id now
        (.ok { servers := public_servers, total := public_servers.length }, reg')

theorem get_mark_synced (reg : Registry) (id now : String) :
    (reg.mark_synced id now).get id =
      (reg.get id).map (fun s => { s with last_sync := some now }) := by
  induction reg with
  | nil => rfl
  | cons x reg ih =>
      simp only [Registry.mark_synced, Registry.get, List.map_cons] at ih ⊢
      by_cases hx : (x.server_id == id) = true
      · rw [if_pos hx]
        simp [List.find?_cons, hx]
      · rw [if_neg hx]
        have hx' : (x.server_id == id) = false := by simpa using hx
        simp only [List.find?_cons, hx']
        exact ih

/-- **C3**: a sync request from an unknown `server_id`, or a known but
unauthenticated one, is rejected with a 401 authorization error and
leaves the registry unchanged; from an authenticated one it succeeds,
the response carries exactly the responder's `list_public()` entries
(and only those), and the requester's entry gets `last_sync` set. -/
theorem sync_servers_authorization (reg : Registry) (req : SyncRequest) (now : String) :
    (reg.get req.requesting_server_id = none →
      sync_servers reg req now = (.error (401, "Unknown server"), reg)) ∧
    (∀ s, reg.get req.requesting_server_id = some s → s.is_authenticated = false →
      sync_servers reg req now = (.error (401, "Server not authenticated"), reg)) ∧
    (∀ s, reg.get req.requesting_server_id = some s → s.is_authenticated = true →
      (sync_servers reg req now).1 =
        .ok { servers := reg.list_public.map toPublicInfo,
              total := (reg.list_public.map toPublicInfo).length } ∧
      (sync_servers reg req now).2.get req.requesting_server_id =
        some { s with last_sync := some now }) := by
  refine ⟨?_, ?_, ?_⟩
  · intro h
    simp [sync_servers, h]
  · intro s h hna
    simp [sync_servers, h, hna]
  · intro s h ha
    refine ⟨by simp [sync_servers, h, ha], ?_⟩
    simp only [sync_servers, h, ha, Bool.not_true, Bool.false_eq_true, if_false]
    rw [get_mark_synced, h]
    simp [ha]

/-- **C3 witness**: the three authorization branches at a concrete
one-entry registry. -/
theorem sync_servers_authorization_witness :
    sync_servers [] { requesting_server_id := "a", requesting_server_key := "k" } "t1"
        = (.error (401, "Unknown server"), []) ∧
    (sync_servers [ServerEntry.new "a" "A" "u" "pk" "t0"]
        { requesting_server_id := "a", requesting_server_key := "k" } "t1"
      = (.error (401, "Server not authenticated"), [ServerEntry.new "a" "A" "u" "pk" "t0"])) ∧
    (sync_servers [{ ServerEntry.new "a" "A" "u" "pk" "t0" with is_authenticated := true }]
        { requesting_server_id := "a", requesting_server_key := "k" } "t1").2.get "a"
      = some { ServerEntry.new "a" "A" "u" "pk" "t0" with
               is_authenticated := true, last_sync := some "t1" } := by
  refine ⟨?_, ?_, ?_⟩
  · exact (sync_servers_authorization [] _ "t1").1 (by rfl)
  · exact ((sync_servers_authorization [ServerEntry.new "a" "A" "u" "pk" "t0"] _ "t1").2.1
      (ServerEntry.new "a" "A" "u" "pk" "t0") (by rfl) (by rfl))
  · exact ((sync_servers_authorization
      [{ ServerEntry.new "a" "A" "u" "pk" "t0" with is_authenticated := true }] _ "t1").2.2
      { ServerEntry.new "a" "A" "u" "pk" "t0" with is_authenticated := true }
      (by rfl) (by rfl)).2

/-- **C10**: a `register_server` request (which no authentication
gates) for an already-registered `server_id` replaces the stored entry
with a freshly constructed one — `is_authenticated = false`,
`trust_level = 50`, `last_seen`/`last_sync`/`version` all `none`,
`discovered_at` the current time — regardless of the previous entry's
values, so re-registration clears a peer's authenticated status and
trust level. -/
theorem register_server_resets_entry (saveOk : SaveOutcome) (reg : Registry)
    (req : RegisterServerRequest) (now ourId ourKey : String)
    (hprev : reg.containsId req.server_id = true)
    (hsave : saveOk (freshRegEntry req now) = true) :
    (register_server saveOk reg req now ourId ourKey).1 =
      .ok { success := true, message := "Server registered successfully",
            our_server_id := ourId, our_public_key := ourKey } ∧
    (register_server saveOk reg req now ourId ourKey).2.get req.server_id =
      some (freshRegEntry req now) ∧
    (freshRegEntry req now).is_authenticated = false ∧
    (freshRegEntry req now).trust_level = 50 ∧
    (freshRegEntry req now).last_seen = none ∧
    (freshRegEntry req now).last_sync = none ∧
    (freshRegEntry req now).version = none ∧
    (freshRegEntry req now).discovered_at = now := by
  refine ⟨?_, ?_, rfl, rfl, rfl, rfl, rfl, rfl⟩
  · simp [register_server, Registry.register, hsave]
  · simp only [register_server, Registry.register, hsave, if_true]
    show (upsert ServerEntry.server_id reg (freshRegEntry req now)).find?
        (fun s => s.server_id == req.server_id) = some (freshRegEntry req now)
    exact find?_upsert_self ServerEntry.server_id reg (freshRegEntry req now)

/-- **C10 witness**: re-registration over an authenticated, trusted
entry at concrete values. -/
theorem register_server_resets_entry_witness :
    Registry.containsId [{ ServerEntry.new "a" "Old" "u0" "pk0" "t0" with
        is_authenticated := true, trust_level := 90 }] "a" = true ∧
    (register_server (fun _ => true)
        [{ ServerEntry.new "a" "Old" "u0" "pk0" "t0" with
           is_authenticated := true, trust_level := 90 }]
        { server_id := "a", name := "New", description := none, public_url := "u1",
          public_key := "pk1", is_public := true } "t1" "me" "mk").2.get "a" =
      some (freshRegEntry
        { server_id := "a", name := "New", description := none, public_url := "u1",
          public_key := "pk1", is_public := true } "t1") :=
  ⟨by rfl,
    (register_server_resets_entry (fun _ => true)
      [{ ServerEntry.new "a" "Old" "u0" "pk0" "t0" with
         is_authenticated := true, trust_level := 90 }]
      { server_id := "a", name := "New", description := none, public_url := "u1",
        public_key := "pk1", is_public := true } "t1" "me" "mk"
      (by rfl) (by rfl)).2.1⟩

theorem containsId_append (reg : Registry) (s : ServerEntry) (id : String) :
    (reg ++ [s]).containsId id = (reg.containsId id || (s.server_id == id)) := by
  simp [Registry.containsId, List.any_append]

theorem merge_from_append (saveOk : SaveOutcome) :
    ∀ (L : List ServerEntry) (reg : Registry),
      ∃ tail, (Registry.merge_from saveOk L reg).2 = reg ++ tail := by
  intro L
  induction L with
  | nil => intro reg; exact ⟨[], by simp [Registry.merge_from]⟩
  | cons s rest ih =>
      intro reg
      by_cases hc : reg.containsId s.server_id = true
      · simpa [Registry.merge_from, hc] using ih reg
      · by_cases hs : saveOk s = true
        · obtain ⟨tail, htail⟩ := ih (reg ++ [s])
          refine ⟨[s] ++ tail, ?_⟩
          simp only [Registry.merge_from, if_neg hc, hs, if_true]
          rw [htail, List.append_assoc]
        · simp only [Registry.merge_from, if_neg hc, if_neg hs]
          exact ih reg

theorem merge_contains_mono (saveOk : SaveOutcome) (L : List ServerEntry)
    (reg : Registry) (id : String) (h : reg.containsId id = true) :
    (Registry.merge_from saveOk L reg).2.containsId id = true := by
  obtain ⟨tail, htail⟩ := merge_from_append saveOk L reg
  rw [htail]
  simp [Registry.containsId, List.any_append] at h ⊢
  exact Or.inl h

theorem get_append_left (reg tail : Registry) (id : String)
    (h : reg.containsId id = true) : (reg ++ tail).get id = reg.get id := by
  simp only [Registry.get, List.find?_append]
  simp only [Registry.containsId, List.any_eq_true] at h
  obtain ⟨x, hx, hpx⟩ := h
  have : reg.find? (fun s => s.server_id == id) ≠ none := by
    rw [Ne, List.find?_eq_none]
    intro hnone
    exact hnone x hx hpx
  cases hf : reg.find? (fun s => s.server_id == id) with
  | none => exact absurd hf this
  | some v => rfl

/-- Entries already present are never touched by a merge. -/
theorem merge_from_preserves (saveOk : SaveOutcome) :
    ∀ (L : List ServerEntry) (reg : Registry) (id : String),
      reg.containsId id = true →
      (Registry.merge_from saveOk L reg).2.get id = reg.get id := by
  intro L
  induction L with
  | nil => intro reg id _; rfl
  | cons s rest ih =>
      intro reg id h
      by_cases hc : reg.containsId s.server_id = true
      · simpa [Registry.merge_from, hc] using ih reg id h
      · by_cases hs : saveOk s = true
        · simp only [Registry.merge_from, if_neg hc, hs, if_true]
          have h' : (reg ++ [s]).containsId id = true := by
            rw [containsId_append, h, Bool.true_or]
          rw [ih (reg ++ [s]) id h', get_append_left reg [s] id h]
        · simp only [Registry.merge_from, if_neg hc, if_neg hs]
          exact ih reg id h

/-- After a merge whose saves all succeed, every `server_id` of the
input list is present. -/
theorem merge_adds_ids (saveOk : SaveOutcome) :
    ∀ (L : List ServerEntry) (reg : Registry),
      (∀ e ∈ L, saveOk e = true) →
      ∀ s ∈ L, (Registry.merge_from saveOk L reg).2.containsId s.server_id = true := by
  intro L
  induction L with
  | nil => intro reg _ s hs; simp at hs
  | cons x rest ih =>
      intro reg hsave s hs
      by_cases hc : reg.containsId x.server_id = true
      · simp only [Registry.merge_from, hc, if_true]
        rcases List.mem_cons.mp hs with h | h
        · subst h
          exact merge_contains_mono saveOk rest reg s.server_id hc
        · exact ih reg (fun e he => hsave e (by simp [he])) s h
      · have hx : saveOk x = true := hsave x (by simp)
        simp only [Registry.merge_from, if_neg hc, hx, if_true]
        rcases List.mem_cons.mp hs with h | h
        · subst h
          refine merge_contains_mono saveOk rest (reg ++ [s]) s.server_id ?_
          rw [containsId_append]
          simp
        · exact ih (reg ++ [x]) (fun e he => hsave e (by simp [he])) s h

/-- A merge whose input ids are all already present does nothing. -/
theorem merge_from_all_present (saveOk : SaveOutcome) :
    ∀ (L : List ServerEntry) (reg : Registry),
      (∀ s ∈ L, reg.containsId s.server_id = true) →
      Registry.merge_from saveOk L reg = (0, reg) := by
  intro L
  induction L with
  | nil => intro reg _; rfl
  | cons s rest ih =>
      intro reg h
      have hc : reg.containsId s.server_id = true := h s (by simp)
      simp only [Registry.merge_from, hc, if_true]
      exact ih reg (fun x hx => h x (by simp [hx]))

/-- The number of merged entries equals the number of distinct incoming
`server_id`s not previously present. -/
theorem merge_from_count (saveOk : SaveOutcome) :
    ∀ (L : List ServerEntry) (reg : Registry),
      (∀ e ∈ L, saveOk e = true) →
      (Registry.merge_from saveOk L reg).1 =
        ((L.map ServerEntry.server_id).toFinset.filter
          (fun id => reg.containsId id = false)).card := by
  intro L
  induction L with
  | nil => intro reg _; simp [Registry.merge_from]
  | cons s rest ih =>
      intro reg hsave
      rw [List.map_cons, List.toFinset_cons, Finset.filter_insert]
      by_cases hc : reg.containsId s.server_id = true
      · rw [if_neg (by simp [hc])]
        simp only [Registry.merge_from, hc, if_true]
        exact ih reg (fun e he => hsave e (by simp [he]))
      · have hc' : reg.containsId s.server_id = false := by
          simpa using hc
        have hx : saveOk s = true := hsave s (by simp)
        rw [if_pos hc']
        simp only [Registry.merge_from, if_neg hc, hx, if_true]
        have hrec := ih (reg ++ [s]) (fun e he => hsave e (by simp [he]))
        rw [hrec]
        have hset : (rest.map ServerEntry.server_id).toFinset.filter
            (fun id => (reg ++ [s]).containsId id = false) =
            ((rest.map ServerEntry.server_id).toFinset.filter
              (fun id => reg.containsId id = false)).erase s.server_id := by
          ext id
          simp only [Finset.mem_filter, Finset.mem_erase, containsId_append,
            Bool.or_eq_false_iff, beq_eq_false_iff_ne]
          constructor
          · rintro ⟨hmem, hreg, hne⟩
            exact ⟨fun he => hne he.symm, hmem, hreg⟩
          · rintro ⟨hne, hmem, hreg⟩
            exact ⟨hmem, hreg, fun he => hne he.symm⟩
        rw [hset]
        set t := (rest.map ServerEntry.server_id).toFinset.filter
          (fun id => reg.containsId id = false) with ht
        by_cases hmem : s.server_id ∈ t
        · rw [Finset.insert_eq_self.mpr hmem, Finset.card_erase_of_mem hmem]
          have : 0 < t.card := Finset.card_pos.mpr ⟨s.server_id, hmem⟩
          omega
        · rw [Finset.card_insert_of_not_mem hmem, Finset.erase_eq_of_not_mem hmem]

/-- **C5**: `merge_from` is insert-only and idempotent — entries whose
`server_id` is already present keep every field; the returned count is
the number of distinct incoming `server_id`s not previously present;
and a second `merge_from` of the same list adds zero entries and leaves
`list_all()` identical. -/
theorem merge_from_insert_only_idempotent (saveOk : SaveOutcome) (L : List ServerEntry)
    (reg : Registry) (hsave : ∀ e ∈ L, saveOk e = true) :
    (∀ id, reg.containsId id = true →
      (Registry.merge_from saveOk L reg).2.get id = reg.get id) ∧
    (Registry.merge_from saveOk L reg).1 =
      ((L.map ServerEntry.server_id).toFinset.filter
        (fun id => reg.containsId id = false)).card ∧
    Registry.merge_from saveOk L (Registry.merge_from saveOk L reg).2 =
      (0, (Registry.merge_from saveOk L reg).2) ∧
    (Registry.merge_from saveOk L (Registry.merge_from saveOk L reg).2).2.list_all =
      (Registry.merge_from saveOk L reg).2.list_all := by
  have hidem : Registry.merge_from saveOk L (Registry.merge_from saveOk L reg).2 =
      (0, (Registry.merge_from saveOk L reg).2) :=
    merge_from_all_present saveOk L _ (merge_adds_ids saveOk L reg hsave)
  exact ⟨fun id h => merge_from_preserves saveOk L reg id h,
    merge_from_count saveOk L reg hsave, hidem, by rw [hidem]⟩

/-- **C5 witness**: a double merge on a concrete registry. -/
theorem merge_from_insert_only_idempotent_witness :
    (∀ e ∈ [ServerEntry.new "b" "B" "ub" "pkb" "t1"],
      (fun (_ : ServerEntry) => true) e = true) ∧
    Registry.merge_from (fun _ => true) [ServerEntry.new "b" "B" "ub" "pkb" "t1"]
        (Registry.merge_from (fun _ => true) [ServerEntry.new "b" "B" "ub" "pkb" "t1"]
          [ServerEntry.new "a" "A" "ua" "pka" "t0"]).2 =
      (0, (Registry.merge_from (fun _ => true) [ServerEntry.new "b" "B" "ub" "pkb" "t1"]
          [ServerEntry.new "a" "A" "ua" "pka" "t0"]).2) :=
  ⟨by decide,
    (merge_from_insert_only_idempotent (fun _ => true)
      [ServerEntry.new "b" "B" "ub" "pkb" "t1"]
      [ServerEntry.new "a" "A" "ua" "pka" "t0"] (by decide)).2.2.1⟩

/-- **C4 / failing input**: `merge_from` inserts incoming entries
verbatim, so merging a list containing an entry with
`is_authenticated = true` into a registry that does not know its
`server_id` (here: the empty registry) yields a registry whose
authenticated list contains that peer-supplied entry — a peer merge
*can* set `is_authenticated`, contradicting the local-admin-only
invariant. -/
theorem merge_from_injects_authenticated :
    (Registry.merge_from (fun _ => true)
        [{ ServerEntry.new "rogue" "Rogue" "ur" "pkr" "t0" with is_authenticated := true }]
        []).2.list_authenticated =
      [{ ServerEntry.new "rogue" "Rogue" "ur" "pkr" "t0" with is_authenticated := true }] ∧
    Registry.list_authenticated [] = [] :=
  ⟨rfl, rfl⟩

/-! ## Per-client keystore

Translated from `src/backend/src/services/keystore.rs`.  The two
YAML-backed maps are association lists; whole-store `save()` outcomes
are a `Bool` passed in where the source performs one. -/

/-- `ServerKeyEntry` (the serde-skipped `secret_key_bytes` cache is
omitted: it never survives storage and equals the decoded
`secret_key`). -/
structure ServerKeyEntry where
  client_id : String
  public_key : String
  secret_key : String
  created_at : String
deriving DecidableEq, Repr

/-- `ServerKeyEntry::generate`, with the random keypair's hex halves and
the timestamp passed in. -/
def ServerKeyEntry.generate (client_id freshPublic freshSecret now : String) :
    ServerKeyEntry :=
  { client_id := client_id, public_key := freshPublic,
    secret_key := freshSecret, created_at := now }

/-- `ClientEntry`; `client_public_key` is kept as the byte list of the
validated hex string. -/
structure ClientEntry where
  client_id : String
  client_public_key : List Nat
  server_key_id : String
  registered_at : String
  last_seen : Option String
deriving DecidableEq, Repr

/-- `KeyStoreManager`: the two in-memory maps, keyed by `client_id`. -/
structure KeyStoreManager where
  server_keys : List ServerKeyEntry
  client_config : List ClientEntry
deriving DecidableEq, Repr

/-- `KeyStoreManager::get_server_key`. -/
def KeyStoreManager.get_server_key (st : KeyStoreManager) (client_id : String) :
    Option ServerKeyEntry :=
  st.server_keys.find? (fun k => k.client_id == client_id)

/-- `KeyStoreManager::get_client`. -/
def KeyStoreManager.get_client (st : KeyStoreManager) (client_id : String) :
    Option ClientEntry :=
  st.client_config.find? (fun c => c.client_id == client_id)

/-- `KeyStoreManager::generate_server_key_for_client`: insert the fresh
entry into the in-memory map; the store save's outcome (`saveStoreOk`)
is discarded (`let _ = store.save()`), so the result does not depend on
it. -/
def KeyStoreManager.generate_server_key_for_client (st : KeyStoreManager)
    (saveStoreOk : Bool) (client_id freshPublic freshSecret now : String) :
    ServerKeyEntry × KeyStoreManager :=
  let entry := ServerKeyEntry.generate client_id freshPublic freshSecret now
  (entry, { st with server_keys := upsert ServerKeyEntry.client_id st.server_keys entry })

/-- `KeyStoreManager::register_client`: requires a `ServerKeyEntry`,
then inserts the `ClientEntry` (store save outcome again discarded). -/
def KeyStoreManager.register_client (st : KeyStoreManager) (saveStoreOk : Bool)
    (client_id : String) (client_public_key : List Nat) (now : String) :
    Option (ClientEntry × KeyStoreManager) :=
  match st.get_server_key client_id with
  | none => none
  | some _ =>
      let entry : ClientEntry :=
        { client_id := client_id, client_public_key := client_public_key,
          server_key_id := client_id, registered_at := now, last_seen := some now }
      some (entry,
        { st with client_config := upsert ClientEntry.client_id st.client_config entry })

/-! ## Registration endpoints

Translated from `src/backend/src/api/register.rs`. -/

/-- ASCII codes `hex::decode` accepts. -/
def isHexDigit (b : Nat) : Bool :=
  (48 ≤ b && b ≤ 57) || (97 ≤ b && b ≤ 102) || (65 ≤ b && b ≤ 70)

/-- `String::from_utf8` on a byte list: the decoded code points, or
`none` for invalid UTF-8 (continuation, overlong, surrogate and
out-of-range forms rejected). -/
def utf8Decode : List Nat → Option (List Nat)
  | [] => some []
  | b :: rest =>
      if b < 0x80 then (utf8Decode rest).map (fun cs => b :: cs)
      else if b < 0xC2 then none
      else if b < 0xE0 then
        match rest with
        | b2 :: rest2 =>
            if 0x80 ≤ b2 && b2 < 0xC0 then
              (utf8Decode rest2).map (fun cs => ((b - 0xC0) * 64 + (b2 - 0x80)) :: cs)
            else none
        | _ => none
      else if b < 0xF0 then
        match rest with
        | b2 :: b3 :: rest3 =>
            if (if b = 0xE0 then 0xA0 else 0x80) ≤ b2 &&
                b2 ≤ (if b = 0xED then 0x9F else 0xBF) &&
                0x80 ≤ b3 && b3 < 0xC0 then
              (utf8Decode rest3).map (fun cs =>
                ((b - 0xE0) * 4096 + (b2 - 0x80) * 64 + (b3 - 0x80)) :: cs)
            else none
        | _ => none
      else if b < 0xF5 then
        match rest with
        | b2 :: b3 :: b4 :: rest4 =>
            if (if b = 0xF0 then 0x90 else 0x80) ≤ b2 &&
                b2 ≤ (if b = 0xF4 then 0x8F else 0xBF) &&
                0x80 ≤ b3 && b3 < 0xC0 && 0x80 ≤ b4 && b4 < 0xC0 then
              (utf8Decode rest4).map (fun cs =>
                ((b - 0xF0) * 262144 + (b2 - 0x80) * 4096 +
                  (b3 - 0x80) * 64 + (b4 - 0x80)) :: cs)
            else none
        | _ => none
      else none

/-- `RegisterInitResponse`. -/
structure RegisterInitResponse where
  client_id : String
  server_public_key : String
  message : String
deriving DecidableEq, Repr

/-- `RegisterCompleteRequest`. -/
structure RegisterCompleteRequest where
  client_id : String
  encrypted_client_public_key : EncryptedMessage
deriving DecidableEq, Repr

/-- `RegisterCompleteResponse`. -/
structure RegisterCompleteResponse where
  client_id : String
  registered : Bool
  api_key : String
  message : String
deriving DecidableEq, Repr

/-- `register_init`: Conflict if a `ClientEntry` already exists,
otherwise generate (and overwrite) the pending per-client server
keypair. -/
def register_init (st : KeyStoreManager) (saveStoreOk : Bool)
    (client_id freshPublic freshSecret now : String) :
    Except (Nat × String) RegisterInitResponse × KeyStoreManager :=
  if (st.get_client client_id).isSome then
    (.error (409, "Client '" ++ client_id ++ "' already registered"), st)
  else
    let r := st.generate_server_key_for_client saveStoreOk client_id freshPublic freshSecret now
    (.ok { client_id := client_id, server_public_key := r.1.public_key,
           message := "Encrypt your public key with this server key and send to /register/complete" },
     r.2)

/-! Backend session store, translated from
`src/backend/src/services/session.rs`.  Instants are abstract `Nat`
values of a monotone clock; every `Utc::now()` is passed in
explicitly. -/

/-- Backend `Session`. -/
structure Session where
  id : String
  api_key : String
  created_at : Nat
  expires_at : Nat
  last_seen : Nat
deriving DecidableEq, Repr

/-- `Session::new` with the random UUID and api key passed in. -/
def Session.new (uuid apiKey : String) (now ttl : Nat) : Session :=
  { id := uuid, api_key := apiKey, created_at := now,
    expires_at := now + ttl, last_seen := now }

/-- `Session::is_expired`: `Utc::now() > expires_at`. -/
def Session.is_expired (s : Session) (now : Nat) : Bool := s.expires_at < now

/-- `Session::touch`. -/
def Session.touch (s : Session) (now : Nat) : Session := { s with last_seen := now }

/-- The in-memory `HashMap<String, Session>` keyed by `api_key`. -/
abbrev SessionStore : Type := List Session

/-- `SessionStore::get`. -/
def SessionStore.get (store : SessionStore) (api_key : String) : Option Session :=
  store.find? (fun s => s.api_key == api_key)

/-- `SessionStore::create`. -/
def SessionStore.create (store : SessionStore) (uuid apiKey : String) (now ttl : Nat) :
    Session × SessionStore :=
  let s := Session.new uuid apiKey now ttl
  (s, upsert Session.api_key store s)

/-- `SessionStore::validate`: evict an expired session, touch and
return a live one. -/
def SessionStore.validate (store : SessionStore) (api_key : String) (now : Nat) :
    Option Session × SessionStore :=
  match store.find? (fun s => s.api_key == api_key) with
  | none => (none, store)
  | some s =>
      if s.is_expired now then
        (none, store.filter (fun t => !(t.api_key == api_key)))
      else
        (some (s.touch now),
         store.map (fun t => if t.api_key == api_key then s.touch now else t))

/-- `SessionStore::revoke`. -/
def SessionStore.revoke (store : SessionStore) (api_key : String) :
    Bool × SessionStore :=
  ((store.find? (fun s => s.api_key == api_key)).isSome,
   store.filter (fun t => !(t.api_key == api_key)))

/-- `SessionStore::cleanup_expired`. -/
def SessionStore.cleanup_expired (store : SessionStore) (now : Nat) :
    Nat × SessionStore :=
  (store.length - (store.filter (fun s => !(s.is_expired now))).length,
   store.filter (fun s => !(s.is_expired now)))

/-- `register_complete`: NotFound without a pending server key; decode
the transport-encoded public key, validate 64 hex characters, store the
client and mint a session. -/
def register_complete (st : KeyStoreManager) (sessions : SessionStore)
    (saveStoreOk : Bool) (req : RegisterCompleteRequest)
    (uuid apiKey : String) (now : Nat) (nowStr : String) (ttl : Nat) :
    Except (Nat × String) RegisterCompleteResponse × KeyStoreManager × SessionStore :=
  match st.get_server_key req.client_id with
  | none =>
      (.error (404, "No pending registration for client '" ++ req.client_id ++ "'"),
       st, sessions)
  | some _ =>
      match b64decode req.encrypted_client_public_key.ciphertext with
      | none => (.error (400, "invalid base64"), st, sessions)
      | some bytes =>
          match utf8Decode bytes with
          | none => (.error (400, "invalid utf-8"), st, sessions)
          | some _ =>
              if bytes.length ≠ 64 ∨ bytes.all isHexDigit = false then
                (.error (400, "Invalid public key format (expected 64 hex characters)"),
                 st, sessions)
              else
                match st.register_client saveStoreOk req.client_id bytes nowStr with
                | none => (.error (500, "Failed to register client"), st, sessions)
                | some (_, st') =>
                    let r := SessionStore.create sessions uuid apiKey now ttl
                    (.ok { client_id := req.client_id, registered := true,
                           api_key := r.1.api_key,
                           message := "Registration complete. Use the shared secret for encrypted communication." },
                     st', r.2)

/-! Library session store, translated from
`src/omni-core-lib/src/session.rs` (a distinct implementation keyed by
`session_id`, with no `last_seen` field). -/

/-- Library `Session`. -/
structure LibSession where
  session_id : String
  client_id : String
  created_at : Nat
  expires_at : Nat
  metadata : List (String × String)
deriving DecidableEq, Repr

/-- Library `Session::is_expired`. -/
def LibSession.is_expired (s : LibSession) (now : Nat) : Bool := s.expires_at < now

/-- The library store's `HashMap<String, Session>` keyed by
`session_id`. -/
abbrev LibSessionStore : Type := List LibSession

/-- Library `SessionStore::get`: filter out an expired hit, mutate
nothing. -/
def LibSessionStore.get (store : LibSessionStore) (session_id : String) (now : Nat) :
    Option LibSession :=
  match store.find? (fun s => s.session_id == session_id) with
  | none => none
  | some s => if s.is_expired now then none else some s

/-- Library `SessionStore::validate`: defined as `self.get(...)` — a
pure read. -/
def LibSessionStore.validate (store : LibSessionStore) (session_id : String) (now : Nat) :
    Option LibSession :=
  LibSessionStore.get store session_id now

theorem find?_filter_not {α : Type} (l : List α) (p : α → Bool) :
    (l.filter (fun t => !(p t))).find? p = none := by
  rw [List.find?_eq_none]
  intro x hx
  have := (List.mem_filter.mp hx).2
  simp at this
  simp [this]

theorem find?_map_touch (l : List Session) (k : String) (s' : Session)
    (hk : s'.api_key = k) :
    (l.map (fun t => if t.api_key == k then s' else t)).find?
        (fun t => t.api_key == k) =
      (l.find? (fun t => t.api_key == k)).map (fun _ => s') := by
  induction l with
  | nil => rfl
  | cons x l ih =>
      by_cases hx : (x.api_key == k) = true
      · rw [List.map_cons, if_pos hx]
        have hs' : (s'.api_key == k) = true := by simp [hk]
        simp only [List.find?_cons, hs', hx]
        rfl
      · have hx' : (x.api_key == k) = false := by simpa using hx
        rw [List.map_cons, if_neg hx]
        simp only [List.find?_cons, hx']
        exact ih

/-- **C7 counterexample**: the library `SessionStore::validate` (also
named by the claim) performs no eviction — on an expired session it
returns `none` while the store, which the call never modifies, still
holds the expired session; it also has no `last_seen` to refresh. -/
theorem lib_validate_does_not_evict :
    LibSessionStore.validate
        [{ session_id := "s1", client_id := "c1", created_at := 0,
           expires_at := 1, metadata := [] }] "s1" 5 = none ∧
    List.find? (fun s : LibSession => s.session_id == "s1")
        [{ session_id := "s1", client_id := "c1", created_at := 0,
           expires_at := 1, metadata := [] }] =
      some { session_id := "s1", client_id := "c1", created_at := 0,
             expires_at := 1, metadata := [] } :=
  ⟨rfl, rfl⟩

/-- **C7 (amended)**: the backend `SessionStore::validate` evicts an
expired session immediately and returns `none`; on a live session it
sets `last_seen` to the current instant (strictly increasing it
whenever the clock advanced) and returns the touched session; among the
backend store's operations only `validate` modifies a stored session's
fields (`create` with a fresh key only appends, `revoke` and
`cleanup_expired` only remove).  The library `SessionStore::validate`,
by contrast, is a pure read: it returns `none` on an expired session
without evicting it and never mutates the store. -/
theorem validate_behavior (store : SessionStore) (k : String) (now : Nat) :
    (∀ s, store.find? (fun t => t.api_key == k) = some s → s.is_expired now = true →
      (SessionStore.validate store k now).1 = none ∧
      ((SessionStore.validate store k now).2.find? (fun t => t.api_key == k)) = none) ∧
    (∀ s, store.find? (fun t => t.api_key == k) = some s → s.is_expired now = false →
      (SessionStore.validate store k now).1 = some (s.touch now) ∧
      (SessionStore.validate store k now).2.find? (fun t => t.api_key == k) =
        some (s.touch now) ∧
      (s.touch now).last_seen = now ∧
      (s.last_seen < now → s.last_seen < (s.touch now).last_seen)) ∧
    (∀ t ∈ (SessionStore.validate store k now).2,
      t ∈ store ∨ ∃ s, store.find? (fun u => u.api_key == k) = some s ∧ t = s.touch now) ∧
    (∀ uuid apiKey ttl, store.find? (fun t => t.api_key == apiKey) = none →
      (SessionStore.create store uuid apiKey now ttl).2 =
        store ++ [Session.new uuid apiKey now ttl]) ∧
    (SessionStore.revoke store k).2.Sublist store ∧
    (SessionStore.cleanup_expired store now).2.Sublist store ∧
    (∀ (lstore : LibSessionStore) (sid : String),
      LibSessionStore.validate lstore sid now = LibSessionStore.get lstore sid now) := by
  refine ⟨?_, ?_, ?_, ?_, List.filter_sublist store, List.filter_sublist store,
    fun _ _ => rfl⟩
  · intro s hs hexp
    refine ⟨?_, ?_⟩
    · simp only [SessionStore.validate, hs, hexp, if_true]
    · simp only [SessionStore.validate, hs, hexp, if_true]
      exact find?_filter_not store (fun t => t.api_key == k)
  · intro s hs hlive
    have hps := List.find?_some hs
    have hsk : s.api_key = k := by simpa using hps
    have hk : (s.touch now).api_key = k := hsk
    refine ⟨?_, ?_, rfl, fun h => h⟩
    · simp only [SessionStore.validate, hs, hlive, Bool.false_eq_true, if_false]
    · simp only [SessionStore.validate, hs, hlive, Bool.false_eq_true, if_false]
      show (store.map (fun t => if t.api_key == k then s.touch now else t)).find?
          (fun t => t.api_key == k) = some (s.touch now)
      rw [find?_map_touch store k (s.touch now) hk, hs]
      rfl
  · intro t ht
    simp only [SessionStore.validate] at ht
    split at ht
    · exact Or.inl ht
    · rename_i s hfind
      split at ht
      · exact Or.inl (List.mem_of_mem_filter ht)
      · obtain ⟨u, hu, hut⟩ := List.mem_map.mp ht
        by_cases huk : (u.api_key == k) = true
        · rw [if_pos huk] at hut
          exact Or.inr ⟨s, hfind, hut.symm⟩
        · rw [if_neg huk] at hut
          exact Or.inl (hut ▸ hu)
  · intro uuid apiKey ttl hfresh
    simp only [SessionStore.create, upsert]
    rw [if_neg ?_]
    intro hany
    rw [List.any_eq_true] at hany
    obtain ⟨x, hx, hpx⟩ := hany
    rw [List.find?_eq_none] at hfresh
    exact hfresh x hx (by simpa using hpx)

/-- **C7 (amended) witness**: eviction of a concrete expired session
and touch of a concrete live one. -/
theorem validate_behavior_witness :
    (SessionStore.validate [Session.new "u1" "key1" 0 1] "key1" 5).1 = none ∧
    (SessionStore.validate [Session.new "u1" "key1" 0 1] "key1" 5).2.find?
        (fun t => t.api_key == "key1") = none ∧
    (SessionStore.validate [Session.new "u2" "key2" 0 9] "key2" 5).1 =
      some ((Session.new "u2" "key2" 0 9).touch 5) ∧
    ((Session.new "u2" "key2" 0 9).touch 5).last_seen = 5 := by
  have h1 := (validate_behavior [Session.new "u1" "key1" 0 1] "key1" 5).1
    (Session.new "u1" "key1" 0 1) (by rfl) (by decide)
  have h2 := (validate_behavior [Session.new "u2" "key2" 0 9] "key2" 5).2.1
    (Session.new "u2" "key2" 0 9) (by rfl) (by decide)
  exact ⟨h1.1, h1.2, h2.1, h2.2.2.1⟩

theorem register_init_ok (st : KeyStoreManager) (saveStoreOk : Bool)
    (c p s t : String) (h : (st.get_client c).isSome = false) :
    (register_init st saveStoreOk c p s t).1 =
      .ok { client_id := c, server_public_key := p,
            message := "Encrypt your public key with this server key and send to /register/complete" } := by
  simp only [register_init, h, Bool.false_eq_true, if_false]
  rfl

theorem register_init_sets_key (st : KeyStoreManager) (saveStoreOk : Bool)
    (c p s t : String) (h : (st.get_client c).isSome = false) :
    (register_init st saveStoreOk c p s t).2.get_server_key c =
      some (ServerKeyEntry.generate c p s t) := by
  simp only [register_init, h, Bool.false_eq_true, if_false,
    KeyStoreManager.generate_server_key_for_client, KeyStoreManager.get_server_key]
  exact find?_upsert_self ServerKeyEntry.client_id st.server_keys
    (ServerKeyEntry.generate c p s t)

/-- **C6**: registration ordering — `register_complete` with no prior
`register_init` fails 404 NotFound leaving both stores unchanged;
`register_init` while a `ClientEntry` exists fails 409 Conflict;
`register_init` twice in a row (no intervening complete) succeeds both
times and the second call overwrites the pending server keypair. -/
theorem registration_ordering (st : KeyStoreManager) (sessions : SessionStore)
    (saveStoreOk : Bool) (c uuid apiKey : String) (now : Nat) (nowStr : String)
    (ttl : Nat) (env : EncryptedMessage) (p1 s1 t1 p2 s2 t2 : String) :
    (st.get_server_key c = none →
      register_complete st sessions saveStoreOk ⟨c, env⟩ uuid apiKey now nowStr ttl =
        (.error (404, "No pending registration for client '" ++ c ++ "'"),
         st, sessions)) ∧
    ((st.get_client c).isSome = true →
      register_init st saveStoreOk c p1 s1 t1 =
        (.error (409, "Client '" ++ c ++ "' already registered"), st)) ∧
    ((st.get_client c).isSome = false →
      (register_init st saveStoreOk c p1 s1 t1).1 =
        .ok { client_id := c, server_public_key := p1,
              message := "Encrypt your public key with this server key and send to /register/complete" } ∧
      ((register_init st saveStoreOk c p1 s1 t1).2.get_client c).isSome = false ∧
      (register_init (register_init st saveStoreOk c p1 s1 t1).2
          saveStoreOk c p2 s2 t2).1 =
        .ok { client_id := c, server_public_key := p2,
              message := "Encrypt your public key with this server key and send to /register/complete" } ∧
      (register_init (register_init st saveStoreOk c p1 s1 t1).2
          saveStoreOk c p2 s2 t2).2.get_server_key c =
        some (ServerKeyEntry.generate c p2 s2 t2)) := by
  refine ⟨?_, ?_, ?_⟩
  · intro h
    simp [register_complete, h]
  · intro h
    simp [register_init, h]
  · intro h
    have hc2 : ((register_init st saveStoreOk c p1 s1 t1).2.get_client c).isSome = false := by
      simp only [register_init, h, Bool.false_eq_true, if_false]
      exact h
    exact ⟨register_init_ok st saveStoreOk c p1 s1 t1 h, hc2,
      register_init_ok _ saveStoreOk c p2 s2 t2 hc2,
      register_init_sets_key _ saveStoreOk c p2 s2 t2 hc2⟩

/-- **C6 witness**: the ordering at a concrete (empty) keystore. -/
theorem registration_ordering_witness :
    KeyStoreManager.get_server_key ⟨[], []⟩ "c1" = none ∧
    register_complete ⟨[], []⟩ [] true ⟨"c1", { nonce := [], ciphertext := [] }⟩
        "u" "k" 0 "t" 60 =
      (.error (404, "No pending registration for client '" ++ "c1" ++ "'"),
       (⟨[], []⟩ : KeyStoreManager), ([] : SessionStore)) ∧
    (KeyStoreManager.get_client ⟨[], []⟩ "c1").isSome = false ∧
    (register_init (register_init ⟨[], []⟩ true "c1" "p1" "s1" "t1").2
        true "c1" "p2" "s2" "t2").2.get_server_key "c1" =
      some (ServerKeyEntry.generate "c1" "p2" "s2" "t2") := by
  have h := registration_ordering ⟨[], []⟩ [] true "c1" "u" "k" 0 "t" 60
    { nonce := [], ciphertext := [] } "p1" "s1" "t1" "p2" "s2" "t2"
  exact ⟨rfl, h.1 rfl, rfl, (h.2.2 rfl).2.2.2⟩

/-- **C9 counterexample**: a failed persistence write in
`ServerRegistry::register` *is* reported to the caller (a 500 from
`register_server`) and the in-memory mutation does *not* take effect
(the registry stays empty), refuting the claim for this mutation
path. -/
theorem register_reports_persistence_failure :
    Registry.register (fun _ => false) [] (ServerEntry.new "a" "A" "u" "p" "t") =
      .error () ∧
    register_server (fun _ => false) []
        { server_id := "a", name := "A", description := none, public_url := "u",
          public_key := "p", is_public := true } "t" "me" "mk" =
      (.error (500, "io error"), []) :=
  ⟨rfl, rfl⟩

/-- **C9 (amended)**: the stores disagree on persistence-failure
policy.  The keystore applies the in-memory mutation and reports no
failure when its store save fails (`generate_server_key_for_client`
ignores the save outcome); but `ServerRegistry::register` propagates
the failed write *without* mutating memory, and
`ServerRegistry::merge_from` silently skips (neither inserts nor
counts) an entry whose save fails. -/
theorem persistence_failure_behavior :
    (∀ (st : KeyStoreManager) (c p s t : String),
      (st.generate_server_key_for_client false c p s t).2.get_server_key c =
        some (ServerKeyEntry.generate c p s t) ∧
      (st.generate_server_key_for_client false c p s t).1 =
        ServerKeyEntry.generate c p s t) ∧
    (∀ (saveOk : SaveOutcome) (e : ServerEntry) (reg : Registry), saveOk e = false →
      Registry.register saveOk reg e = .error ()) ∧
    (∀ (saveOk : SaveOutcome) (s : ServerEntry) (rest : List ServerEntry)
        (reg : Registry),
      reg.containsId s.server_id = false → saveOk s = false →
      Registry.merge_from saveOk (s :: rest) reg =
        Registry.merge_from saveOk rest reg) := by
  refine ⟨?_, ?_, ?_⟩
  · intro st c p s t
    refine ⟨?_, rfl⟩
    simp only [KeyStoreManager.generate_server_key_for_client,
      KeyStoreManager.get_server_key]
    exact find?_upsert_self ServerKeyEntry.client_id st.server_keys
      (ServerKeyEntry.generate c p s t)
  · intro saveOk e reg h
    simp [Registry.register, h]
  · intro saveOk s rest reg h1 h2
    simp [Registry.merge_from, h1, h2]

/-- **C9 (amended) witness**: the register conjunct at a concrete
always-failing save. -/
theorem persistence_failure_behavior_witness :
    ((fun (_ : ServerEntry) => false) (ServerEntry.new "a" "A" "u" "p" "t") = false) ∧
    Registry.register (fun _ => false) [] (ServerEntry.new "a" "A" "u" "p" "t") =
      .error () :=
  ⟨rfl, persistence_failure_behavior.2.1 (fun _ => false)
    (ServerEntry.new "a" "A" "u" "p" "t") [] rfl⟩

end OmniCore
